import Mathlib

/-!
Verification of the Black-Scholes option pricing core of the repository
(src/app.py): the pricing function `black_scholes`, the heatmap grid
evaluation of `plot_heatmap`, and the `np.linspace` parameter ranges.

Floating-point arithmetic of the source is embedded into the exact reals;
scipy's `norm.cdf` is embedded as the standard normal cumulative
distribution function, defined below as a normalized Gaussian integral.
Python exceptions (`raise ValueError`) are embedded as `Except.error`.
-/

open Real MeasureTheory Set

/-- Unnormalized standard normal density: `exp (-t^2 / 2)`. -/
noncomputable def gauss (t : ℝ) : ℝ := Real.exp (-t ^ 2 / 2)

/-- The standard normal cumulative distribution function, the exact-real
embedding of `scipy.stats.norm.cdf` used at src/app.py lines 14 and 16:
`Φ x = (1 / sqrt (2 π)) ∫_{-∞}^x exp (-t^2 / 2) dt`. -/
noncomputable def normCdf (x : ℝ) : ℝ :=
  (Real.sqrt (2 * Real.pi))⁻¹ * ∫ t in Iic x, gauss t

/-- `d1` as computed at src/app.py line 10:
`d1 = (np.log(S / K) + (r + 0.5 * sigma ** 2) * T) / (sigma * np.sqrt(T))`. -/
noncomputable def d1 (S K T r sigma : ℝ) : ℝ :=
  (Real.log (S / K) + (r + 0.5 * sigma ^ 2) * T) / (sigma * Real.sqrt T)

/-- `d2` as computed at src/app.py line 11: `d2 = d1 - sigma * np.sqrt(T)`. -/
noncomputable def d2 (S K T r sigma : ℝ) : ℝ :=
  d1 S K T r sigma - sigma * Real.sqrt T

/-- The expression returned on the call branch, src/app.py line 14:
`S * norm.cdf(d1) - K * np.exp(-r * T) * norm.cdf(d2)`. -/
noncomputable def callPrice (S K T r sigma : ℝ) : ℝ :=
  S * normCdf (d1 S K T r sigma) -
    K * Real.exp (-r * T) * normCdf (d2 S K T r sigma)

/-- The expression returned on the put branch, src/app.py line 16:
`K * np.exp(-r * T) * norm.cdf(-d2) - S * norm.cdf(-d1)`. -/
noncomputable def putPrice (S K T r sigma : ℝ) : ℝ :=
  K * Real.exp (-r * T) * normCdf (-d2 S K T r sigma) -
    S * normCdf (-d1 S K T r sigma)

/-- Embedding of `black_scholes` (src/app.py lines 9-18). Line 10 evaluates
`np.log(S / K)` where `S / K` is Python float division: at `K = 0` it
raises `ZeroDivisionError` before the side check, embedded as the first
guard. For `K ≠ 0` every other out-of-domain input flows through numpy as
`inf`/`nan` with only a warning (no exception), so the total real
arithmetic of `d1`/`d2` is faithful there. The body then branches on
`option_type`: the call branch and put branch return a price, and any
other value raises `ValueError`, embedded as `Except.error`. The Python
signature's default argument `option_type='call'` is kept. -/
noncomputable def black_scholes (S K T r sigma : ℝ)
    (option_type : String := "call") : Except String ℝ :=
  if K = 0 then
    Except.error "ZeroDivisionError: float division by zero"
  else if option_type = "call" then
    Except.ok (callPrice S K T r sigma)
  else if option_type = "put" then
    Except.ok (putPrice S K T r sigma)
  else
    Except.error "option_type must be call or put"

/-- State-passing translation of `black_scholes` over an arbitrary ambient
state type `W` (the interpreter state outside the function's arguments).
The Python body (src/app.py lines 9-18) consists solely of pure expression
evaluation - two local bindings and a branch - with no assignment to any
global or enclosing name and no I/O, so the ambient state passes through
unchanged next to the same branch structure (including the
`ZeroDivisionError` raise at `K = 0`, which is likewise deterministic and
touches no state). -/
noncomputable def black_scholesW {W : Type} (w : W) (S K T r sigma : ℝ)
    (option_type : String) : Except String ℝ × W :=
  (if K = 0 then
    Except.error "ZeroDivisionError: float division by zero"
  else if option_type = "call" then
    Except.ok (callPrice S K T r sigma)
  else if option_type = "put" then
    Except.ok (putPrice S K T r sigma)
  else
    Except.error "option_type must be call or put", w)

/-- The numeric core of `plot_heatmap` (src/app.py lines 21-30): the two
price grids. For each volatility `sigma` in `vol_range` (row index) and each
spot `S` in `spot_range` (column index), cell `(i, j)` of the first grid is
`black_scholes_func(S, K, T, r, sigma, option_type='call')` and of the
second grid the same with `option_type='put'`; the Python fills
preallocated `len(vol_range) × len(spot_range)` arrays cell by cell. -/
noncomputable def plot_heatmap_grids
    (black_scholes_func : ℝ → ℝ → ℝ → ℝ → ℝ → String → Except String ℝ)
    (spot_range vol_range : List ℝ) (T r K : ℝ) :
    List (List (Except String ℝ)) × List (List (Except String ℝ)) :=
  (vol_range.map fun sigma =>
      spot_range.map fun S => black_scholes_func S K T r sigma "call",
   vol_range.map fun sigma =>
      spot_range.map fun S => black_scholes_func S K T r sigma "put")

/-- Cell access in a row-major grid: row `i`, column `j`, `none` when out of
bounds. -/
def cell {α : Type} (g : List (List α)) (i j : ℕ) : Option α :=
  (g[i]?).bind fun row => row[j]?

/-- Embedding of `np.linspace(start, stop, num)` as used at src/app.py
lines 104-105. numpy raises `ValueError` only for a negative sample count;
`num = 0` yields an empty array, `num = 1` yields `[start]`, and for
`num ≥ 2` the samples are `start + i * (stop - start) / (num - 1)` with the
endpoint included; `start > stop` simply produces a decreasing sequence.
(The division by `num - 1` at `num = 1` is harmless here exactly as in
numpy: the single sample `i = 0` does not use the step.) -/
noncomputable def linspace (start stop : ℝ) (num : ℤ) :
    Except String (List ℝ) :=
  if num < 0 then Except.error "Number of samples must be non-negative"
  else Except.ok ((List.range num.toNat).map fun i : ℕ =>
    start + (i : ℝ) * ((stop - start) / ((num : ℝ) - 1)))

/-- `black_scholes` as a plain six-argument function value, the shape in
which it is passed to `plot_heatmap` at src/app.py line 151 (the default
argument plays no role there: both loop calls pass `option_type`
explicitly). -/
noncomputable def black_scholesFn :
    ℝ → ℝ → ℝ → ℝ → ℝ → String → Except String ℝ :=
  fun S K T r sigma option_type => black_scholes S K T r sigma option_type

/-- The call formula exactly as written in the specification:
`call = S·Φ(d1) − K·e^(−r·T)·Φ(d2)` with
`d1 = (ln(S/K) + (r + 0.5·σ²)·T) / (σ·√T)` and `d2 = d1 − σ·√T`. -/
noncomputable def callPriceSpec (S K T r sigma : ℝ) : ℝ :=
  let d1s := (Real.log (S / K) + (r + 0.5 * sigma ^ 2) * T) /
    (sigma * Real.sqrt T)
  let d2s := d1s - sigma * Real.sqrt T
  S * normCdf d1s - K * Real.exp (-r * T) * normCdf d2s

/-- The put formula exactly as written in the specification:
`put = K·e^(−r·T)·Φ(−d2) − S·Φ(−d1)`. -/
noncomputable def putPriceSpec (S K T r sigma : ℝ) : ℝ :=
  let d1s := (Real.log (S / K) + (r + 0.5 * sigma ^ 2) * T) /
    (sigma * Real.sqrt T)
  let d2s := d1s - sigma * Real.sqrt T
  K * Real.exp (-r * T) * normCdf (-d2s) - S * normCdf (-d1s)

/-! ### Basic facts about the Gaussian density and the normal CDF -/

lemma continuous_gauss : Continuous gauss := by
  unfold gauss
  fun_prop

lemma gauss_eq_exp_neg_mul_sq :
    gauss = fun t => Real.exp (-(1 / 2) * t ^ 2) := by
  funext t
  unfold gauss
  congr 1
  ring

lemma gauss_neg (t : ℝ) : gauss (-t) = gauss t := by
  unfold gauss
  congr 1
  ring

lemma gauss_pos (t : ℝ) : 0 < gauss t := Real.exp_pos _

lemma integrable_gauss : Integrable gauss := by
  rw [gauss_eq_exp_neg_mul_sq]
  exact integrable_exp_neg_mul_sq (by norm_num)

lemma integral_gauss_total : (∫ t, gauss t) = Real.sqrt (2 * Real.pi) := by
  simp only [gauss_eq_exp_neg_mul_sq]
  rw [integral_gaussian]
  congr 1
  ring

lemma integral_gauss_Iic_add_Ioi (x : ℝ) :
    (∫ t in Iic x, gauss t) + (∫ t in Ioi x, gauss t) =
      Real.sqrt (2 * Real.pi) := by
  rw [intervalIntegral.integral_Iic_add_Ioi integrable_gauss.integrableOn
    integrable_gauss.integrableOn]
  exact integral_gauss_total

lemma integral_gauss_Iic_neg (x : ℝ) :
    (∫ t in Iic (-x), gauss t) = ∫ t in Ioi x, gauss t := by
  have h := integral_comp_neg_Iic (-x) gauss
  simp only [gauss_neg, neg_neg] at h
  exact h

lemma sqrt_two_pi_pos : 0 < Real.sqrt (2 * Real.pi) := by
  positivity

/-- The reflection identity `Φ x + Φ (-x) = 1` for the standard normal CDF. -/
lemma normCdf_add_neg (x : ℝ) : normCdf x + normCdf (-x) = 1 := by
  unfold normCdf
  rw [integral_gauss_Iic_neg, ← mul_add, integral_gauss_Iic_add_Ioi,
    inv_mul_cancel₀ sqrt_two_pi_pos.ne']

/-- Difference of CDF values as an interval integral of the density. -/
lemma normCdf_sub (x y : ℝ) :
    normCdf x - normCdf y =
      (Real.sqrt (2 * Real.pi))⁻¹ * ∫ t in y..x, gauss t := by
  unfold normCdf
  rw [← mul_sub, intervalIntegral.integral_Iic_sub_Iic
    integrable_gauss.integrableOn integrable_gauss.integrableOn]

/-- For a nonzero strike the call branch returns its formula. -/
lemma black_scholes_call_eq (S K T r sigma : ℝ) (hK : K ≠ 0) :
    black_scholes S K T r sigma "call" =
      Except.ok (callPrice S K T r sigma) := by
  unfold black_scholes
  rw [if_neg hK]
  rfl

/-- For a nonzero strike the put branch returns its formula. -/
lemma black_scholes_put_eq (S K T r sigma : ℝ) (hK : K ≠ 0) :
    black_scholes S K T r sigma "put" =
      Except.ok (putPrice S K T r sigma) := by
  unfold black_scholes
  rw [if_neg hK]
  rfl

/-- C1: for every `S, K, T, r, σ` with `S > 0`, `K > 0`, `T > 0`, `σ > 0`,
the pricing function with side `call` returns `S·Φ(d1) − K·e^(−r·T)·Φ(d2)`
and with side `put` returns `K·e^(−r·T)·Φ(−d2) − S·Φ(−d1)`, where
`d1 = (ln(S/K) + (r + 0.5·σ²)·T)/(σ·√T)`, `d2 = d1 − σ·√T` and `Φ` is the
standard normal CDF. -/
theorem black_scholes_matches_spec_formula (S K T r sigma : ℝ)
    (hS : 0 < S) (hK : 0 < K) (hT : 0 < T) (hsig : 0 < sigma) :
    black_scholes S K T r sigma "call" =
      Except.ok (callPriceSpec S K T r sigma) ∧
    black_scholes S K T r sigma "put" =
      Except.ok (putPriceSpec S K T r sigma) :=
  ⟨black_scholes_call_eq S K T r sigma hK.ne',
    black_scholes_put_eq S K T r sigma hK.ne'⟩

/-- Witness for C1 at `S = K = 100`, `T = 1`, `r = 0`, `σ = 1/5`. -/
theorem black_scholes_matches_spec_formula_witness :
    (0 < (100 : ℝ)) ∧ (0 < (1 : ℝ)) ∧ (0 < (1 / 5 : ℝ)) ∧
    (black_scholes 100 100 1 0 (1 / 5) "call" =
      Except.ok (callPriceSpec 100 100 1 0 (1 / 5)) ∧
    black_scholes 100 100 1 0 (1 / 5) "put" =
      Except.ok (putPriceSpec 100 100 1 0 (1 / 5))) :=
  ⟨by norm_num, by norm_num, by norm_num,
    black_scholes_matches_spec_formula 100 100 1 0 (1 / 5)
      (by norm_num) (by norm_num) (by norm_num) (by norm_num)⟩

/-- C4 counterexample: at `K = 0` the division `S / K` at src/app.py
line 10 raises `ZeroDivisionError` before the side check, so side `call`
returns no price, and a bad side fails with `ZeroDivisionError` rather than
the side-validation `ValueError` - refuting the claim quantified over
every `K`. -/
theorem black_scholes_zero_strike_counterexample :
    (black_scholes 100 0 1 (1 / 20) (1 / 5) "call").isOk = false ∧
    black_scholes 100 0 1 (1 / 20) (1 / 5) "straddle" =
      Except.error "ZeroDivisionError: float division by zero" := by
  constructor
  · unfold black_scholes
    rw [if_pos rfl]
    rfl
  · unfold black_scholes
    rw [if_pos rfl]

/-- C4 (amended): for every `K ≠ 0`, and every side value that is neither
`call` nor `put`, the pricing function fails with the side-validation
error, and it returns a price if and only if the side is exactly `call`
or `put`. (At `K = 0` the division `S / K` raises `ZeroDivisionError`
before the side check, regardless of the side value.) -/
theorem black_scholes_side_validation (S K T r sigma : ℝ)
    (option_type : String) (hK : K ≠ 0) :
    ((black_scholes S K T r sigma option_type).isOk = true ↔
      option_type = "call" ∨ option_type = "put") ∧
    (option_type ≠ "call" → option_type ≠ "put" →
      black_scholes S K T r sigma option_type =
        Except.error "option_type must be call or put") := by
  unfold black_scholes
  rw [if_neg hK]
  split_ifs with h1 h2
  · simp [h1, Except.isOk, Except.toBool]
  · simp [h2, Except.isOk, Except.toBool]
  · simp [h1, h2, Except.isOk, Except.toBool]

/-- Witness for C4: the spec's own example side `straddle` fails with the
side-validation error at a nonzero strike. -/
theorem black_scholes_side_validation_witness :
    black_scholes 100 100 1 (1 / 20) (1 / 5) "straddle" =
      Except.error "option_type must be call or put" :=
  (black_scholes_side_validation 100 100 1 (1 / 20) (1 / 5) "straddle"
    (by norm_num)).2 (by decide) (by decide)

/-- C5 counterexample: `σ = 0` is non-positive, yet the pricing function
does not fail - the call with side `call` returns a price (numpy produces
`inf` with only a warning there), so no InvalidParameter error is raised
at the call boundary. -/
theorem black_scholes_no_domain_validation_counterexample :
    (black_scholes 100 100 1 (1 / 20) 0 "call").isOk = true := by
  rw [black_scholes_call_eq 100 100 1 (1 / 20) 0 (by norm_num)]
  rfl

/-- C5 (amended): the pricing function performs no input validation: for
non-positive `σ`, `T` or `S`, and for negative `K`, with a recognized side
it raises no error and still returns a price computed by the formula. The
only failing non-positive input is `K = 0`, where the float division
`S / K` raises an arithmetic `ZeroDivisionError` at src/app.py line 10 -
not a validation error at the call boundary - before the side check. -/
theorem black_scholes_no_domain_validation (S K T r sigma : ℝ)
    (hK : K ≠ 0) (h : sigma ≤ 0 ∨ T ≤ 0 ∨ S ≤ 0 ∨ K < 0) :
    (black_scholes S K T r sigma "call").isOk = true ∧
    (black_scholes S K T r sigma "put").isOk = true := by
  rw [black_scholes_call_eq S K T r sigma hK,
    black_scholes_put_eq S K T r sigma hK]
  exact ⟨rfl, rfl⟩

/-- Witness for the amended C5 at `σ = 0`. -/
theorem black_scholes_no_domain_validation_witness :
    ((100 : ℝ) ≠ 0) ∧
    ((0 : ℝ) ≤ 0 ∨ (1 : ℝ) ≤ 0 ∨ (100 : ℝ) ≤ 0 ∨ (100 : ℝ) < 0) ∧
    ((black_scholes 100 100 1 (1 / 20) 0 "call").isOk = true ∧
     (black_scholes 100 100 1 (1 / 20) 0 "put").isOk = true) :=
  ⟨by norm_num, Or.inl le_rfl,
    black_scholes_no_domain_validation 100 100 1 (1 / 20) 0 (by norm_num)
      (Or.inl le_rfl)⟩

/-- C9: determinism and purity of the pricing function - in the
state-passing translation the result does not depend on the ambient state,
the ambient state is returned unchanged, and the result coincides with the
pure function of the arguments alone. -/
theorem black_scholes_pure {W : Type} (w w' : W) (S K T r sigma : ℝ)
    (option_type : String) :
    (black_scholesW w S K T r sigma option_type).1 =
      (black_scholesW w' S K T r sigma option_type).1 ∧
    (black_scholesW w S K T r sigma option_type).2 = w ∧
    (black_scholesW w S K T r sigma option_type).1 =
      black_scholes S K T r sigma option_type :=
  ⟨rfl, rfl, rfl⟩

/-- C10: the side parameter defaults to `call` - calling the pricing
function with the side argument omitted returns the same result as calling
it with side `call`. -/
theorem black_scholes_default_side (S K T r sigma : ℝ) :
    black_scholes S K T r sigma = black_scholes S K T r sigma "call" := rfl

/-- C2: the grid evaluator produces a call grid and a put grid of shape
`[len(vol_range)][len(spot_range)]`, and cell `(i, j)` of each grid equals
the pricing function applied to `(spot_range[j], K, T, r, vol_range[i])`
with the corresponding side, computed by the same pricing function. -/
theorem plot_heatmap_grid_cells (spot_range vol_range : List ℝ) (T r K : ℝ)
    (i j : ℕ) (hi : i < vol_range.length) (hj : j < spot_range.length) :
    ((plot_heatmap_grids black_scholesFn spot_range vol_range T r K).1.map
        List.length = List.replicate vol_range.length spot_range.length) ∧
    ((plot_heatmap_grids black_scholesFn spot_range vol_range T r K).2.map
        List.length = List.replicate vol_range.length spot_range.length) ∧
    cell (plot_heatmap_grids black_scholesFn spot_range vol_range T r K).1 i j
      = some (black_scholes (spot_range.get ⟨j, hj⟩) K T r
          (vol_range.get ⟨i, hi⟩) "call") ∧
    cell (plot_heatmap_grids black_scholesFn spot_range vol_range T r K).2 i j
      = some (black_scholes (spot_range.get ⟨j, hj⟩) K T r
          (vol_range.get ⟨i, hi⟩) "put") := by
  refine ⟨?_, ?_, ?_, ?_⟩ <;>
    simp [plot_heatmap_grids, cell, List.map_map, Function.comp_def,
      List.map_const', black_scholesFn, hi, hj]

/-- Witness for C2 on a concrete 2×2 grid at `i = 1`, `j = 0`. -/
theorem plot_heatmap_grid_cells_witness :
    ((plot_heatmap_grids black_scholesFn [100, 110] [1 / 5, 3 / 10]
        1 (1 / 20) 100).1.map List.length = List.replicate 2 2) ∧
    ((plot_heatmap_grids black_scholesFn [100, 110] [1 / 5, 3 / 10]
        1 (1 / 20) 100).2.map List.length = List.replicate 2 2) ∧
    cell (plot_heatmap_grids black_scholesFn [100, 110] [1 / 5, 3 / 10]
        1 (1 / 20) 100).1 1 0
      = some (black_scholes 100 100 1 (1 / 20) (3 / 10) "call") ∧
    cell (plot_heatmap_grids black_scholesFn [100, 110] [1 / 5, 3 / 10]
        1 (1 / 20) 100).2 1 0
      = some (black_scholes 100 100 1 (1 / 20) (3 / 10) "put") :=
  plot_heatmap_grid_cells [100, 110] [1 / 5, 3 / 10] 1 (1 / 20) 100 1 0
    (by norm_num) (by norm_num)

/-- Put-call parity of the two branch formulas, with no side conditions:
it only uses the reflection identity of the normal CDF. -/
lemma parity_core (S K T r sigma : ℝ) :
    callPrice S K T r sigma - putPrice S K T r sigma =
      S - K * Real.exp (-r * T) := by
  unfold callPrice putPrice
  have h1 := normCdf_add_neg (d1 S K T r sigma)
  have h2 := normCdf_add_neg (d2 S K T r sigma)
  linear_combination S * h1 - K * Real.exp (-r * T) * h2

/-- C3: put-call parity - for every `S, K, T, σ > 0` and every `r`, the
call price minus the put price returned by the pricing function equals
`S − K·e^(−r·T)` exactly over the exact-real embedding. -/
theorem put_call_parity (S K T r sigma : ℝ)
    (hS : 0 < S) (hK : 0 < K) (hT : 0 < T) (hsig : 0 < sigma) :
    black_scholes S K T r sigma "call" =
      Except.ok (callPrice S K T r sigma) ∧
    black_scholes S K T r sigma "put" =
      Except.ok (putPrice S K T r sigma) ∧
    callPrice S K T r sigma - putPrice S K T r sigma =
      S - K * Real.exp (-r * T) :=
  ⟨black_scholes_call_eq S K T r sigma hK.ne',
    black_scholes_put_eq S K T r sigma hK.ne',
    parity_core S K T r sigma⟩

/-- Witness for C3 at `S = 100, K = 90, T = 2, r = 1/20, σ = 3/10`. -/
theorem put_call_parity_witness :
    (0 < (100 : ℝ)) ∧ (0 < (90 : ℝ)) ∧ (0 < (2 : ℝ)) ∧ (0 < (3 / 10 : ℝ)) ∧
    (black_scholes 100 90 2 (1 / 20) (3 / 10) "call" =
      Except.ok (callPrice 100 90 2 (1 / 20) (3 / 10)) ∧
    black_scholes 100 90 2 (1 / 20) (3 / 10) "put" =
      Except.ok (putPrice 100 90 2 (1 / 20) (3 / 10)) ∧
    callPrice 100 90 2 (1 / 20) (3 / 10) -
        putPrice 100 90 2 (1 / 20) (3 / 10) =
      100 - 90 * Real.exp (-(1 / 20) * 2)) :=
  ⟨by norm_num, by norm_num, by norm_num, by norm_num,
    put_call_parity 100 90 2 (1 / 20) (3 / 10)
      (by norm_num) (by norm_num) (by norm_num) (by norm_num)⟩

/-- C6 counterexample: the range construction does not fail when
`min > max` (here `5 > 2` with `count = 10`), nor when `count = 0 < 1` -
both produce an `ok` result, refuting the claimed InvalidParameter
failures. -/
theorem linspace_no_validation_counterexample :
    (linspace 5 2 10).isOk = true ∧ (linspace 0 1 0).isOk = true :=
  ⟨rfl, rfl⟩

/-- C6 (amended): range construction only fails for a negative count;
`count = 0` yields an empty sequence and `min > max` is not rejected. For
`count ≥ 1` and `min ≤ max` it yields an ordered sequence of `count`
evenly spaced values from `min` to `max` inclusive (a single point equal
to `min` when `count = 1`). -/
theorem linspace_spec (start stop : ℝ) (num : ℤ) (hn : 1 ≤ num)
    (hle : start ≤ stop) :
    ∃ l : List ℝ, linspace start stop num = Except.ok l ∧
      l.length = num.toNat ∧
      (∀ i, ∀ h : i < l.length,
        l.get ⟨i, h⟩ =
          start + (i : ℝ) * ((stop - start) / ((num : ℝ) - 1))) ∧
      (∀ h0 : 0 < l.length, l.get ⟨0, h0⟩ = start) ∧
      (2 ≤ num → ∀ h1 : num.toNat - 1 < l.length,
        l.get ⟨num.toNat - 1, h1⟩ = stop) ∧
      (∀ i j : ℕ, ∀ hij : i ≤ j, ∀ hj : j < l.length,
        l.get ⟨i, lt_of_le_of_lt hij hj⟩ ≤ l.get ⟨j, hj⟩) := by
  have hc : 0 ≤ (stop - start) / ((num : ℝ) - 1) := by
    apply div_nonneg (by linarith)
    have h1 : (1 : ℝ) ≤ (num : ℝ) := by exact_mod_cast hn
    linarith
  refine ⟨(List.range num.toNat).map fun i : ℕ =>
    start + (i : ℝ) * ((stop - start) / ((num : ℝ) - 1)),
    ?_, ?_, ?_, ?_, ?_, ?_⟩
  · unfold linspace
    rw [if_neg (by omega)]
  · rw [List.length_map, List.length_range]
  · intro i h
    simp only [List.get_eq_getElem, List.getElem_map, List.getElem_range]
  · intro h0
    simp only [List.get_eq_getElem, List.getElem_map, List.getElem_range]
    norm_num
  · intro h2 h1
    simp only [List.get_eq_getElem, List.getElem_map, List.getElem_range]
    have hnum1 : ((num.toNat : ℝ)) = (num : ℝ) := by
      have := Int.toNat_of_nonneg (show (0:ℤ) ≤ num by omega)
      exact_mod_cast congrArg (Int.cast : ℤ → ℝ) this
    have hge : 1 ≤ num.toNat := by omega
    have hcast : ((num.toNat - 1 : ℕ) : ℝ) = (num : ℝ) - 1 := by
      rw [Nat.cast_sub hge, hnum1]
      norm_num
    have hne : (num : ℝ) - 1 ≠ 0 := by
      have h2r : (2 : ℝ) ≤ (num : ℝ) := by exact_mod_cast h2
      linarith
    rw [hcast]
    field_simp
  · intro i j hij hj
    simp only [List.get_eq_getElem, List.getElem_map, List.getElem_range]
    have hcast : (i : ℝ) ≤ (j : ℝ) := by exact_mod_cast hij
    have := mul_le_mul_of_nonneg_right hcast hc
    linarith

/-- Witness for the amended C6: `linspace 0 1 3` is `[0, 1/2, 1]`. -/
theorem linspace_spec_witness :
    (1 ≤ (3 : ℤ)) ∧ ((0 : ℝ) ≤ 1) ∧
    ∃ l : List ℝ, linspace 0 1 3 = Except.ok l ∧
      l.length = (3 : ℤ).toNat ∧
      (∀ i, ∀ h : i < l.length,
        l.get ⟨i, h⟩ =
          0 + (i : ℝ) * ((1 - 0) / (((3 : ℤ) : ℝ) - 1))) ∧
      (∀ h0 : 0 < l.length, l.get ⟨0, h0⟩ = 0) ∧
      (2 ≤ (3 : ℤ) → ∀ h1 : (3 : ℤ).toNat - 1 < l.length,
        l.get ⟨(3 : ℤ).toNat - 1, h1⟩ = 1) ∧
      (∀ i j : ℕ, ∀ hij : i ≤ j, ∀ hj : j < l.length,
        l.get ⟨i, lt_of_le_of_lt hij hj⟩ ≤ l.get ⟨j, hj⟩) :=
  ⟨by norm_num, by norm_num, linspace_spec 0 1 3 (by norm_num) (by norm_num)⟩

/-! ### Derivative machinery for monotonicity in volatility -/

/-- The standard normal CDF is differentiable with derivative the
normalized Gaussian density. -/
lemma normCdf_hasDerivAt (x : ℝ) :
    HasDerivAt normCdf ((Real.sqrt (2 * Real.pi))⁻¹ * gauss x) x := by
  have hkey : ∀ y : ℝ, normCdf y =
      (Real.sqrt (2 * Real.pi))⁻¹ * (∫ t in Iic (0 : ℝ), gauss t) +
      (Real.sqrt (2 * Real.pi))⁻¹ * ∫ t in (0 : ℝ)..y, gauss t := by
    intro y
    unfold normCdf
    rw [← intervalIntegral.integral_Iic_sub_Iic integrable_gauss.integrableOn
      integrable_gauss.integrableOn]
    ring
  have hd : HasDerivAt (fun y : ℝ =>
      (Real.sqrt (2 * Real.pi))⁻¹ * (∫ t in Iic (0 : ℝ), gauss t) +
      (Real.sqrt (2 * Real.pi))⁻¹ * ∫ t in (0 : ℝ)..y, gauss t)
      ((Real.sqrt (2 * Real.pi))⁻¹ * gauss x) x :=
    (((continuous_gauss.integral_hasStrictDerivAt 0 x).hasDerivAt).const_mul
      _).const_add _
  exact hd.congr_of_eventuallyEq (Filter.Eventually.of_forall hkey)

/-- Derivative of `x ↦ a / x + b * x` away from zero. -/
lemma hasDerivAt_affine_inv (a b x : ℝ) (hx : x ≠ 0) :
    HasDerivAt (fun y : ℝ => a / y + b * y) (-(a / x ^ 2) + b) x := by
  have h1 : HasDerivAt (fun y : ℝ => a * y⁻¹) (a * -(x ^ 2)⁻¹) x :=
    (hasDerivAt_inv hx).const_mul a
  have h2 : HasDerivAt (fun y : ℝ => y * b) b x := hasDerivAt_mul_const b
  have h3 := h1.add h2
  have hfe : (fun y : ℝ => a / y + b * y) = fun y : ℝ => a * y⁻¹ + y * b := by
    funext y
    ring
  rw [hfe]
  convert h3 using 1
  field_simp

/-- Derivative of `x ↦ Φ (a / x + b * x)` away from zero. -/
lemma hasDerivAt_normCdf_affine (a b x : ℝ) (hx : x ≠ 0) :
    HasDerivAt (fun y : ℝ => normCdf (a / y + b * y))
      ((Real.sqrt (2 * Real.pi))⁻¹ * gauss (a / x + b * x) *
        (-(a / x ^ 2) + b)) x := by
  have h := (normCdf_hasDerivAt (a / x + b * x)).comp x
    (hasDerivAt_affine_inv a b x hx)
  simpa [Function.comp_def] using h

/-- For `T > 0` and `x ≠ 0`, `d1` as a function of volatility `x` has the
affine-plus-inverse form `a / x + b * x` with
`a = (ln(S/K) + r·T)/√T` and `b = √T/2`. -/
lemma d1_affine (S K T r x : ℝ) (hT : 0 < T) (hx : x ≠ 0) :
    d1 S K T r x =
      ((Real.log (S / K) + r * T) / Real.sqrt T) / x +
        (Real.sqrt T / 2) * x := by
  have hT2 : Real.sqrt T * Real.sqrt T = T := Real.mul_self_sqrt hT.le
  have hu0 : Real.sqrt T ≠ 0 := (Real.sqrt_pos.2 hT).ne'
  unfold d1
  set u := Real.sqrt T
  rw [← hT2]
  field_simp
  ring

/-- Same form for `d2`, with `b = -(√T/2)`. -/
lemma d2_affine (S K T r x : ℝ) (hT : 0 < T) (hx : x ≠ 0) :
    d2 S K T r x =
      ((Real.log (S / K) + r * T) / Real.sqrt T) / x +
        (-(Real.sqrt T / 2)) * x := by
  unfold d2
  rw [d1_affine S K T r x hT hx]
  have hT2 : Real.sqrt T * Real.sqrt T = T := Real.mul_self_sqrt hT.le
  set u := Real.sqrt T
  rw [← hT2]
  ring

/-- The key Black-Scholes density identity
`K·e^(−r·T)·φ(d2) = S·φ(d1)` (with the unnormalized density). -/
lemma gauss_d2_eq (S K T r x : ℝ) (hS : 0 < S) (hK : 0 < K) (hT : 0 < T)
    (hx : x ≠ 0) :
    K * Real.exp (-r * T) * gauss (d2 S K T r x) =
      S * gauss (d1 S K T r x) := by
  have hdd : d1 S K T r x ^ 2 - d2 S K T r x ^ 2 =
      2 * (Real.log (S / K) + r * T) := by
    have hT2 : Real.sqrt T * Real.sqrt T = T := Real.mul_self_sqrt hT.le
    have hu0 : Real.sqrt T ≠ 0 := (Real.sqrt_pos.2 hT).ne'
    rw [d1_affine S K T r x hT hx, d2_affine S K T r x hT hx]
    set u := Real.sqrt T
    rw [← hT2]
    field_simp
    ring
  have hSK : Real.exp (Real.log (S / K)) = S / K :=
    Real.exp_log (div_pos hS hK)
  have hKne : K ≠ 0 := hK.ne'
  set A := d1 S K T r x
  set B := d2 S K T r x
  unfold gauss
  have key : Real.exp (-r * T) * Real.exp (-B ^ 2 / 2) =
      Real.exp (Real.log (S / K)) * Real.exp (-A ^ 2 / 2) := by
    rw [← Real.exp_add, ← Real.exp_add]
    congr 1
    linarith
  calc K * Real.exp (-r * T) * Real.exp (-B ^ 2 / 2)
      = K * (Real.exp (-r * T) * Real.exp (-B ^ 2 / 2)) := by ring
    _ = K * (Real.exp (Real.log (S / K)) * Real.exp (-A ^ 2 / 2)) := by
        rw [key]
    _ = K * ((S / K) * Real.exp (-A ^ 2 / 2)) := by rw [hSK]
    _ = S * Real.exp (-A ^ 2 / 2) := by field_simp

/-- Vega of the call branch: as a function of volatility, the call price
has derivative `S·φ(d1)·√T` (with the normalized density) at every
positive volatility. -/
lemma callPrice_hasDerivAt (S K T r sigma : ℝ) (hS : 0 < S) (hK : 0 < K)
    (hT : 0 < T) (hsig : 0 < sigma) :
    HasDerivAt (fun x => callPrice S K T r x)
      (S * ((Real.sqrt (2 * Real.pi))⁻¹ * gauss (d1 S K T r sigma)) *
        Real.sqrt T) sigma := by
  have hx : sigma ≠ 0 := hsig.ne'
  have h1 := hasDerivAt_normCdf_affine
    ((Real.log (S / K) + r * T) / Real.sqrt T) (Real.sqrt T / 2) sigma hx
  have h2 := hasDerivAt_normCdf_affine
    ((Real.log (S / K) + r * T) / Real.sqrt T) (-(Real.sqrt T / 2)) sigma hx
  have hF := (h1.const_mul S).sub (h2.const_mul (K * Real.exp (-r * T)))
  have hev : (fun x => callPrice S K T r x) =ᶠ[nhds sigma]
      (fun y => S * normCdf (((Real.log (S / K) + r * T) / Real.sqrt T) / y +
          (Real.sqrt T / 2) * y) -
        K * Real.exp (-r * T) *
          normCdf (((Real.log (S / K) + r * T) / Real.sqrt T) / y +
            (-(Real.sqrt T / 2)) * y)) := by
    filter_upwards [eventually_ne_nhds hx] with y hy
    unfold callPrice
    rw [d1_affine S K T r y hT hy, d2_affine S K T r y hT hy]
  have hDer := hF.congr_of_eventuallyEq hev
  convert hDer using 1
  rw [(d1_affine S K T r sigma hT hx).symm, (d2_affine S K T r sigma hT hx).symm]
  have hid := gauss_d2_eq S K T r sigma hS hK hT hx
  linear_combination ((Real.sqrt (2 * Real.pi))⁻¹ *
    (-((((Real.log (S / K) + r * T) / Real.sqrt T) / sigma ^ 2)) +
      -(Real.sqrt T / 2))) * hid

/-- The call branch is strictly increasing in volatility on `(0, ∞)`. -/
lemma callPrice_strictMonoOn (S K T r : ℝ) (hS : 0 < S) (hK : 0 < K)
    (hT : 0 < T) :
    StrictMonoOn (fun x => callPrice S K T r x) (Ioi (0 : ℝ)) := by
  apply strictMonoOn_of_deriv_pos (convex_Ioi 0)
  · intro x hx
    exact (callPrice_hasDerivAt S K T r x hS hK hT
      hx).differentiableAt.continuousAt.continuousWithinAt
  · intro x hx
    rw [interior_Ioi] at hx
    rw [(callPrice_hasDerivAt S K T r x hS hK hT hx).deriv]
    exact mul_pos (mul_pos hS (mul_pos (inv_pos.2 sqrt_two_pi_pos)
      (gauss_pos _))) (Real.sqrt_pos.2 hT)

/-- C7: monotonicity in volatility - for every `S, K, T > 0`, every `r`,
and every `0 < σ₁ < σ₂`, holding the other parameters fixed, the call
price at `σ₂` is strictly greater than at `σ₁`, and likewise for the put
price. -/
theorem black_scholes_vol_monotonic (S K T r s1 s2 : ℝ) (hS : 0 < S)
    (hK : 0 < K) (hT : 0 < T) (h1 : 0 < s1) (h12 : s1 < s2) :
    callPrice S K T r s1 < callPrice S K T r s2 ∧
    putPrice S K T r s1 < putPrice S K T r s2 := by
  have h2 : 0 < s2 := h1.trans h12
  have hcall := callPrice_strictMonoOn S K T r hS hK hT
    (mem_Ioi.2 h1) (mem_Ioi.2 h2) h12
  refine ⟨hcall, ?_⟩
  have e1 := parity_core S K T r s1
  have e2 := parity_core S K T r s2
  linarith

/-- Witness for C7 at `S = K = 100`, `T = 1`, `r = 1/20`,
`σ₁ = 1/10 < σ₂ = 1/5`. -/
theorem black_scholes_vol_monotonic_witness :
    (0 < (100 : ℝ)) ∧ (0 < (1 : ℝ)) ∧ (0 < (1 / 10 : ℝ)) ∧
    ((1 / 10 : ℝ) < 1 / 5) ∧
    (callPrice 100 100 1 (1 / 20) (1 / 10) <
      callPrice 100 100 1 (1 / 20) (1 / 5) ∧
    putPrice 100 100 1 (1 / 20) (1 / 10) <
      putPrice 100 100 1 (1 / 20) (1 / 5)) :=
  ⟨by norm_num, by norm_num, by norm_num, by norm_num,
    black_scholes_vol_monotonic 100 100 1 (1 / 20) (1 / 10) (1 / 5)
      (by norm_num) (by norm_num) (by norm_num) (by norm_num) (by norm_num)⟩

/-! ### Numeric reference value at S = K = 100, T = 1, r = 0, sigma = 0.2 -/

lemma d1_ref : d1 100 100 1 0 (0.2) = 1 / 10 := by
  unfold d1
  rw [show ((100 : ℝ) / 100) = 1 by norm_num, Real.log_one, Real.sqrt_one]
  norm_num

lemma d2_ref : d2 100 100 1 0 (0.2) = -(1 / 10) := by
  unfold d2
  rw [d1_ref, Real.sqrt_one]
  norm_num

lemma callPrice_ref : callPrice 100 100 1 0 (0.2) =
    100 * (normCdf (1 / 10) - normCdf (-(1 / 10))) := by
  unfold callPrice
  rw [d1_ref, d2_ref, show (-(0 : ℝ) * 1) = 0 by ring, Real.exp_zero]
  ring

lemma putPrice_ref : putPrice 100 100 1 0 (0.2) =
    100 * (normCdf (1 / 10) - normCdf (-(1 / 10))) := by
  unfold putPrice
  rw [d1_ref, d2_ref, show (-(0 : ℝ) * 1) = 0 by ring, Real.exp_zero,
    neg_neg]
  ring

/-- Quadratic lower bound on the Gaussian density. -/
lemma gauss_lower (t : ℝ) : 1 - t ^ 2 / 2 ≤ gauss t := by
  unfold gauss
  have h := Real.add_one_le_exp (-t ^ 2 / 2)
  linarith

/-- Quartic upper bound on the Gaussian density. -/
lemma gauss_upper (t : ℝ) : gauss t ≤ 1 - t ^ 2 / 2 + t ^ 4 / 4 := by
  unfold gauss
  have hu0 : (0 : ℝ) ≤ t ^ 2 / 2 := by positivity
  have h1 : 1 + t ^ 2 / 2 ≤ Real.exp (t ^ 2 / 2) := by
    linarith [Real.add_one_le_exp (t ^ 2 / 2)]
  have h1u : (0 : ℝ) < 1 + t ^ 2 / 2 := by linarith
  have hem : Real.exp (-t ^ 2 / 2) * (1 + t ^ 2 / 2) ≤ 1 := by
    calc Real.exp (-t ^ 2 / 2) * (1 + t ^ 2 / 2)
        ≤ Real.exp (-t ^ 2 / 2) * Real.exp (t ^ 2 / 2) :=
          mul_le_mul_of_nonneg_left h1 (Real.exp_nonneg _)
      _ = 1 := by
          rw [← Real.exp_add, show (-t ^ 2 / 2 + t ^ 2 / 2 : ℝ) = 0 by ring,
            Real.exp_zero]
  have hpoly : (1 : ℝ) ≤ (1 - t ^ 2 / 2 + t ^ 4 / 4) * (1 + t ^ 2 / 2) := by
    nlinarith [pow_nonneg (sq_nonneg t) 3, sq_nonneg t]
  have := hem.trans hpoly
  exact le_of_mul_le_mul_right this h1u

lemma poly_low_integrable :
    IntervalIntegrable (fun t : ℝ => 1 - t ^ 2 / 2) volume (-(1 / 10)) (1 / 10) := by
  apply Continuous.intervalIntegrable
  fun_prop

lemma poly_high_integrable :
    IntervalIntegrable (fun t : ℝ => 1 - t ^ 2 / 2 + t ^ 4 / 4) volume
      (-(1 / 10)) (1 / 10) := by
  apply Continuous.intervalIntegrable
  fun_prop

lemma J_lower :
    (599 / 3000 : ℝ) ≤ ∫ t in (-(1 / 10) : ℝ)..(1 / 10 : ℝ), gauss t := by
  have hmono := intervalIntegral.integral_mono_on
    (by norm_num : (-(1 / 10) : ℝ) ≤ 1 / 10) poly_low_integrable
    (continuous_gauss.intervalIntegrable _ _) (fun t _ => gauss_lower t)
  have hval : (∫ t in (-(1 / 10) : ℝ)..(1 / 10 : ℝ), (1 - t ^ 2 / 2)) =
      599 / 3000 := by
    rw [intervalIntegral.integral_sub
      (Continuous.intervalIntegrable (by fun_prop) _ _)
      (Continuous.intervalIntegrable (by fun_prop) _ _),
      intervalIntegral.integral_const, intervalIntegral.integral_div,
      integral_pow]
    norm_num
  linarith [hmono, hval.symm.le]

lemma J_upper :
    (∫ t in (-(1 / 10) : ℝ)..(1 / 10 : ℝ), gauss t) ≤
      599 / 3000 + 1 / 1000000 := by
  have hmono := intervalIntegral.integral_mono_on
    (by norm_num : (-(1 / 10) : ℝ) ≤ 1 / 10)
    (continuous_gauss.intervalIntegrable _ _) poly_high_integrable
    (fun t _ => gauss_upper t)
  have hval : (∫ t in (-(1 / 10) : ℝ)..(1 / 10 : ℝ),
      (1 - t ^ 2 / 2 + t ^ 4 / 4)) = 599 / 3000 + 1 / 1000000 := by
    rw [intervalIntegral.integral_add
      (Continuous.intervalIntegrable (by fun_prop) _ _)
      (Continuous.intervalIntegrable (by fun_prop) _ _),
      intervalIntegral.integral_sub
      (Continuous.intervalIntegrable (by fun_prop) _ _)
      (Continuous.intervalIntegrable (by fun_prop) _ _),
      intervalIntegral.integral_const]
    rw [intervalIntegral.integral_div, intervalIntegral.integral_div,
      integral_pow, integral_pow]
    norm_num
  linarith [hmono, hval.le]

lemma sqrt_two_pi_lb : (2506628 / 1000000 : ℝ) < Real.sqrt (2 * Real.pi) := by
  rw [Real.lt_sqrt (by norm_num)]
  nlinarith [Real.pi_gt_d6]

lemma sqrt_two_pi_ub : Real.sqrt (2 * Real.pi) < 2506629 / 1000000 := by
  rw [Real.sqrt_lt' (by norm_num)]
  nlinarith [Real.pi_lt_d6]

lemma callPrice_ref_bound :
    |callPrice 100 100 1 0 (0.2) - 7.9656| < 1e-3 := by
  rw [callPrice_ref, normCdf_sub]
  have hJl := J_lower
  have hJu := J_upper
  have hsl := sqrt_two_pi_lb
  have hsu := sqrt_two_pi_ub
  have hs0 : (0 : ℝ) < Real.sqrt (2 * Real.pi) :=
    lt_trans (by norm_num) hsl
  have hJ0 : (0 : ℝ) ≤ ∫ t in (-(1 / 10) : ℝ)..(1 / 10 : ℝ), gauss t :=
    le_trans (by norm_num) hJl
  have hxub : (Real.sqrt (2 * Real.pi))⁻¹ ≤ (2506628 / 1000000 : ℝ)⁻¹ :=
    inv_anti₀ (by norm_num) hsl.le
  have hxlb : (2506629 / 1000000 : ℝ)⁻¹ ≤ (Real.sqrt (2 * Real.pi))⁻¹ :=
    inv_anti₀ hs0 hsu.le
  have hub : (Real.sqrt (2 * Real.pi))⁻¹ *
      (∫ t in (-(1 / 10) : ℝ)..(1 / 10 : ℝ), gauss t) ≤
      (2506628 / 1000000 : ℝ)⁻¹ * (599 / 3000 + 1 / 1000000) :=
    mul_le_mul hxub hJu hJ0 (by norm_num)
  have hlb : (2506629 / 1000000 : ℝ)⁻¹ * (599 / 3000) ≤
      (Real.sqrt (2 * Real.pi))⁻¹ *
        (∫ t in (-(1 / 10) : ℝ)..(1 / 10 : ℝ), gauss t) :=
    mul_le_mul hxlb hJl (by norm_num) (inv_nonneg.2 hs0.le)
  rw [abs_lt]
  have hnl : (7.9646 : ℝ) < 100 * ((2506629 / 1000000 : ℝ)⁻¹ * (599 / 3000)) := by
    norm_num
  have hnu : 100 * ((2506628 / 1000000 : ℝ)⁻¹ * (599 / 3000 + 1 / 1000000)) <
      (7.9666 : ℝ) := by
    norm_num
  constructor
  · nlinarith [hlb, hnl]
  · nlinarith [hub, hnu]

lemma putPrice_ref_bound :
    |putPrice 100 100 1 0 (0.2) - 7.9656| < 1e-3 := by
  rw [putPrice_ref, ← callPrice_ref]
  exact callPrice_ref_bound

/-- C8: reference value - at `S = 100, K = 100, T = 1, r = 0, σ = 0.2` the
pricing function returns a call price and a put price both within `1e-3`
of `7.9656`. -/
theorem black_scholes_reference_value :
    ∃ c p : ℝ, black_scholes 100 100 1 0 (0.2) "call" = Except.ok c ∧
      black_scholes 100 100 1 0 (0.2) "put" = Except.ok p ∧
      |c - 7.9656| < 1e-3 ∧ |p - 7.9656| < 1e-3 :=
  ⟨callPrice 100 100 1 0 (0.2), putPrice 100 100 1 0 (0.2),
    black_scholes_call_eq 100 100 1 0 (0.2) (by norm_num),
    black_scholes_put_eq 100 100 1 0 (0.2) (by norm_num),
    callPrice_ref_bound, putPrice_ref_bound⟩
